import Mathlib

/-!
Shallow embedding of the GitHub deployment CI step (`main.go`).

Go strings are modelled as `List Char`.  The ambient environment
(`os.Getenv`) is passed as an explicit function, the two HTTP responses as
an explicit `World` oracle, and the observable behaviour (requests issued,
output printed) as explicit traces.  A Go runtime panic (out-of-range slice
index, `panic(...)`) is modelled as `Option.none` / `RunResult.panicked`.
-/

/-- Separator predicate of the `strings.FieldsFunc` call in `ownerAndRepo`
(main.go:52): `r == '/' || r == ':'`. -/
def isSep (c : Char) : Bool := c == '/' || c == ':'

/-- Model of `strings.TrimPrefix(s, pre)`: drop `pre` when it is a prefix of
`s`, otherwise return `s` unchanged. -/
def TrimPrefix (pre s : List Char) : List Char :=
  if pre.isPrefixOf s then s.drop pre.length else s

/-- Model of `strings.TrimSuffix(s, suf)`: drop `suf` when it is a suffix of
`s`, otherwise return `s` unchanged. -/
def TrimSuffix (suf s : List Char) : List Char :=
  if suf.isSuffixOf s then s.take (s.length - suf.length) else s

/-- Model of `strings.FieldsFunc`: split at each run of characters satisfying
`f`; empty fields are not produced. -/
def FieldsFunc (f : Char → Bool) : List Char → List (List Char)
  | [] => []
  | c :: cs =>
    if f c then FieldsFunc f cs
    else
      match cs with
      | [] => [[c]]
      | d :: _ =>
        if f d then [c] :: FieldsFunc f cs
        else
          match FieldsFunc f cs with
          | w :: ws => (c :: w) :: ws
          | [] => [[c]]

/-- Model of `ownerAndRepo` (main.go:50-54).  The source indexes `a[1]` and
`a[2]` without a bounds check and returns no error; when fewer than three
fields exist this is an out-of-range panic, modelled here as `none`. -/
def ownerAndRepo (url : List Char) : Option (List Char × List Char) :=
  let u := TrimPrefix ("git@".toList) (TrimPrefix ("https://".toList) url)
  match FieldsFunc isSep u with
  | _ :: o :: r :: _ => some (o, TrimSuffix (".git".toList) r)
  | _ => none

/-- Model of `getState` (main.go:56-64).  `getenv` models `os.Getenv`, which
returns the empty string for an unset variable. -/
def getState (getenv : List Char → List Char) (preset : List Char) : List Char :=
  if preset ≠ "auto".toList then preset
  else if getenv ("BITRISE_BUILD_STATUS".toList) = "0".toList then "success".toList
  else "failure".toList

/-- Helper for `stringsTitle`: the boolean records whether the previous
character was a word boundary. -/
def titleGo : Bool → List Char → List Char
  | _, [] => []
  | prev, c :: cs =>
    (if prev && c.isAlpha then c.toUpper else c) :: titleGo (!c.isAlpha) cs

/-- Model of `strings.Title`, restricted to its behaviour on the single
lowercase words relevant here: map the first letter of each word to upper
case. -/
def stringsTitle (s : List Char) : List Char := titleGo true s

/-- Model of `getDescription` (main.go:66-71).  The source computes
`strings.Title(getState(state))` when `desc` is empty but discards that
value (main.go:68) and falls through to `return desc` (main.go:70). -/
def getDescription (getenv : List Char → List Char) (desc state : List Char) :
    List Char :=
  if desc = [] then
    let _ := stringsTitle (getState getenv state)
    desc
  else desc

/-- Decimal digits of a natural number; the first argument is recursion
fuel (`n + 1` suffices). -/
def natToCharsAux : Nat → Nat → List Char → List Char
  | 0, _, acc => acc
  | fuel + 1, n, acc =>
    let d := Char.ofNat (n % 10 + '0'.toNat)
    if n < 10 then d :: acc else natToCharsAux fuel (n / 10) (d :: acc)

/-- Decimal representation of a natural number. -/
def natToChars (n : Nat) : List Char := natToCharsAux (n + 1) n []

/-- Model of `fmt.Sprintf` `%d` formatting of a Go `int`. -/
def intToChars : Int → List Char
  | Int.ofNat n => natToChars n
  | Int.negSucc n => '-' :: natToChars (n + 1)

/-- Skip JSON whitespace. -/
def skipSpaces : List Char → List Char
  | ' ' :: cs => skipSpaces cs
  | '\t' :: cs => skipSpaces cs
  | '\n' :: cs => skipSpaces cs
  | '\r' :: cs => skipSpaces cs
  | s => s

/-- Longest leading run of decimal digits, and the rest. -/
def takeDigits : List Char → List Char × List Char
  | [] => ([], [])
  | c :: cs =>
    if c.isDigit then
      let p := takeDigits cs
      (c :: p.1, p.2)
    else ([], c :: cs)

/-- Numeric value of a digit string (accumulator form). -/
def digitsToNat : List Char → Nat → Nat
  | [], acc => acc
  | c :: cs, acc => digitsToNat cs (acc * 10 + (c.toNat - '0'.toNat))

/-- After the characters `"id"` of a JSON key: expect `:` and an integer. -/
def parseIdAt (s : List Char) : Option Int :=
  match skipSpaces s with
  | ':' :: rest =>
    match skipSpaces rest with
    | '-' :: rest2 =>
      match takeDigits rest2 with
      | ([], _) => none
      | (ds, _) => some (-(Int.ofNat (digitsToNat ds 0)))
    | rest2 =>
      match takeDigits rest2 with
      | ([], _) => none
      | (ds, _) => some (Int.ofNat (digitsToNat ds 0))
  | _ => none

/-- Scan a JSON document for a `"id"` key and read its integer value. -/
def findId : List Char → Option Int
  | '"' :: 'i' :: 'd' :: '"' :: rest => parseIdAt rest
  | _ :: cs => findId cs
  | [] => none

/-- Model of `var response Response; json.Unmarshal(body, &response)`
(main.go:147-150) for the struct `Response{Id int; Url string}` (its broken
tags `json: "id"` are ignored by Go, so matching falls back to the field
name, case-insensitively).  The error returned by `json.Unmarshal` is
discarded in the source, so on any failure the zero value `0` remains. -/
def unmarshalId (body : List Char) : Int := (findId body).getD 0

/-- Model of the `config` struct (main.go:17-28), as already parsed by
`stepconf.Parse`. -/
structure Config where
  authToken : List Char
  repositoryURL : List Char
  commitHash : List Char
  apiURL : List Char
  state : List Char
  buildURL : List Char
  statusIdentifier : List Char
  description : List Char
  verbose : Bool
  deriving DecidableEq

/-- A JSON value as produced by `json.Marshal` for the two request structs. -/
inductive JVal where
  | str (s : List Char)
  | arr (elems : List (List Char))
  deriving DecidableEq

/-- Model of the `deploymentRequest` struct (main.go:30-38). -/
structure DeploymentRequest where
  requiredContexts : List (List Char)
  ref : List Char
  environment : List Char
  state : List Char
  targetURL : List Char
  description : List Char
  context : List Char
  deriving DecidableEq

/-- Model of `json.Marshal` on `deploymentRequest`: fields in struct order;
`target_url`, `description` and `context` carry `omitempty`, the others
(including `state`) do not. -/
def marshalDeploymentRequest (r : DeploymentRequest) : List (List Char × JVal) :=
  [("required_contexts".toList, JVal.arr r.requiredContexts),
   ("ref".toList, JVal.str r.ref),
   ("environment".toList, JVal.str r.environment),
   ("state".toList, JVal.str r.state)]
  ++ (if r.targetURL = [] then [] else [("target_url".toList, JVal.str r.targetURL)])
  ++ (if r.description = [] then [] else [("description".toList, JVal.str r.description)])
  ++ (if r.context = [] then [] else [("context".toList, JVal.str r.context)])

/-- Model of the `deploymentStatusRequest` struct (main.go:40-45). -/
structure DeploymentStatusRequest where
  environmentUrl : List Char
  environment : List Char
  state : List Char
  description : List Char
  deriving DecidableEq

/-- Model of `json.Marshal` on `deploymentStatusRequest`: only `description`
carries `omitempty`. -/
def marshalDeploymentStatusRequest (r : DeploymentStatusRequest) :
    List (List Char × JVal) :=
  [("environment_url".toList, JVal.str r.environmentUrl),
   ("environment".toList, JVal.str r.environment),
   ("state".toList, JVal.str r.state)]
  ++ (if r.description = [] then [] else [("description".toList, JVal.str r.description)])

/-- Lookup of a field in a marshalled JSON object. -/
def lookupField (k : List Char) : List (List Char × JVal) → Option JVal
  | [] => none
  | kv :: rest => if kv.1 = k then some kv.2 else lookupField k rest

/-- An outgoing HTTP request as built by the source: `POST`, target URL,
`Authorization` header, JSON body. -/
structure Request where
  method : List Char
  url : List Char
  authHeader : List Char
  body : List (List Char × JVal)
  deriving DecidableEq

/-- An incoming HTTP response.  `body = none` models a failure of
`ioutil.ReadAll` on the response body. -/
structure HttpResp where
  statusCode : Nat
  status : List Char
  body : Option (List Char)
  deriving DecidableEq

/-- The external HTTP world: the response delivered to the first call
(create deployment) and to the second call (create deployment status). -/
structure World where
  resp1 : HttpResp
  resp2 : HttpResp
  deriving DecidableEq

/-- Observable standard-output events. -/
inductive Event where
  | dump (call : Nat) (req : Request) (resp : HttpResp)
  | printDeploymentId (id : Int)
  deriving DecidableEq

/-- Outcome of a run: normal return, a returned `error`, or a runtime
panic (`panic(...)` or an out-of-range index). -/
inductive RunResult where
  | ok
  | err (msg : List Char)
  | panicked
  deriving DecidableEq

/-- Model of `createDeploymentStatus` (main.go:159-202).  Returns the
outcome, the printed events, and the requests issued. -/
def createDeploymentStatus (getenv : List Char → List Char) (world : World)
    (cfg : Config) (deploymentId : Int) :
    RunResult × List Event × List Request :=
  match ownerAndRepo cfg.repositoryURL with
  | none => (RunResult.panicked, [], [])
  | some (owner, repo) =>
    let url := cfg.apiURL ++ "/repos/".toList ++ owner ++ "/".toList ++ repo
      ++ "/deployments/".toList ++ intToChars deploymentId ++ "/statuses".toList
    let body := marshalDeploymentStatusRequest
      { environmentUrl := cfg.buildURL
        environment := "staging".toList
        state := getState getenv cfg.state
        description := getDescription getenv cfg.description cfg.state }
    let req : Request :=
      { method := "POST".toList, url := url,
        authHeader := "token ".toList ++ cfg.authToken, body := body }
    let resp := world.resp2
    let dumpEvents :=
      if (resp.statusCode != 201) || cfg.verbose then [Event.dump 2 req resp] else []
    if resp.statusCode ≠ 201 then
      (RunResult.err ("server error, unexpected status code: ".toList ++ resp.status),
       dumpEvents, [req])
    else
      (RunResult.ok, dumpEvents, [req])

/-- Model of `createDeployment` (main.go:92-156).  The `deploymentRequest`
literal (main.go:95-100) sets only `Ref`, `Environment`, `Description` and
`RequiredContexts`; `State`, `TargetURL` and `Context` keep the Go zero
value `""`.  A failed body read panics (main.go:143-145); the
`json.Unmarshal` error is ignored (main.go:148). -/
def createDeployment (getenv : List Char → List Char) (world : World)
    (cfg : Config) : RunResult × List Event × List Request :=
  match ownerAndRepo cfg.repositoryURL with
  | none => (RunResult.panicked, [], [])
  | some (owner, repo) =>
    let url := cfg.apiURL ++ "/repos/".toList ++ owner ++ "/".toList ++ repo
      ++ "/deployments".toList
    let body := marshalDeploymentRequest
      { requiredContexts := []
        ref := cfg.commitHash
        environment := "staging".toList
        state := []
        targetURL := []
        description := getDescription getenv cfg.description cfg.state
        context := [] }
    let req : Request :=
      { method := "POST".toList, url := url,
        authHeader := "token ".toList ++ cfg.authToken, body := body }
    let resp := world.resp1
    let dumpEvents :=
      if (resp.statusCode != 201) || cfg.verbose then [Event.dump 1 req resp] else []
    if resp.statusCode ≠ 201 then
      (RunResult.err ("server error, unexpected status code: ".toList ++ resp.status),
       dumpEvents, [req])
    else
      match resp.body with
      | none => (RunResult.panicked, dumpEvents, [req])
      | some bodyStr =>
        let deploymentId := unmarshalId bodyStr
        let rest := createDeploymentStatus getenv world cfg deploymentId
        (rest.1, dumpEvents ++ [Event.printDeploymentId deploymentId] ++ rest.2.1,
         req :: rest.2.2)

/-- Model of `main` (main.go:207-220) after a successful `stepconf.Parse`:
the process exit code is `some 0` on success, `some 1` when
`createDeployment` returns an error (main.go:215-218), and `none` when the
run panics (a Go panic does not reach `os.Exit(1)`). -/
def mainRun (getenv : List Char → List Char) (world : World) (cfg : Config) :
    Option Nat × List Event × List Request :=
  match createDeployment getenv world cfg with
  | (RunResult.ok, ev, reqs) => (some 0, ev, reqs)
  | (RunResult.err _, ev, reqs) => (some 1, ev, reqs)
  | (RunResult.panicked, ev, reqs) => (none, ev, reqs)

/-- Trace observer: a request/response dump printed by call `n`. -/
def isDump (n : Nat) : Event → Bool
  | Event.dump m _ _ => m == n
  | _ => false

/-- A concrete configuration used to evaluate the model at specific
inputs. -/
def cfgEx : Config :=
  { authToken := "t".toList
    repositoryURL := "https://h/o/r.git".toList
    commitHash := "abc".toList
    apiURL := "api".toList
    state := "success".toList
    buildURL := "bu".toList
    statusIdentifier := []
    description := []
    verbose := false }

/-- A concrete world: call 1 answers `201` with the body
`{"id": 42, "url": "https://x/42"}`; call 2 answers `201`. -/
def worldEx : World :=
  { resp1 := { statusCode := 201, status := "201 Created".toList,
               body := some ("\x7b\"id\": 42, \"url\": \"https://x/42\"\x7d".toList) }
    resp2 := { statusCode := 201, status := "201 Created".toList,
               body := some [] } }

/-- A concrete world in which call 1 is answered with status 422. -/
def world422 : World :=
  { resp1 := { statusCode := 422, status := "422 Unprocessable Entity".toList,
               body := some [] }
    resp2 := { statusCode := 201, status := "201 Created".toList,
               body := some [] } }

/-! ## Helper lemmas about prefixes and splitting -/

theorem consPre_iff (a b : Char) (l₁ l₂ : List Char) :
    a :: l₁ <+: b :: l₂ ↔ a = b ∧ l₁ <+: l₂ := by
  constructor
  · rintro ⟨t, ht⟩
    injection ht with h1 h2
    exact ⟨h1, t, h2⟩
  · rintro ⟨rfl, t, rfl⟩
    exact ⟨t, rfl⟩

theorem preSubset {l₁ l₂ : List Char} (h : l₁ <+: l₂) : ∀ c ∈ l₁, c ∈ l₂ := by
  intro c hc
  rcases h with ⟨t, rfl⟩
  exact List.mem_append_left t hc

theorem preEqOfLen {l₁ l₂ : List Char} (h : l₁ <+: l₂)
    (hl : l₂.length ≤ l₁.length) : l₁ = l₂ := by
  rcases h with ⟨t, rfl⟩
  have ht : t.length = 0 := by
    rw [List.length_append] at hl
    omega
  rw [List.length_eq_zero] at ht
  simp [ht]

theorem isPre_iff (l₁ l₂ : List Char) : l₁.isPrefixOf l₂ = true ↔ l₁ <+: l₂ := by
  induction l₁ generalizing l₂ with
  | nil =>
    simp only [List.isPrefixOf]
    exact iff_of_true trivial ⟨l₂, rfl⟩
  | cons a t ih =>
    cases l₂ with
    | nil =>
      simp only [List.isPrefixOf]
      constructor
      · intro h
        cases h
      · rintro ⟨u, hu⟩
        simp at hu
    | cons b t₂ =>
      rw [consPre_iff]
      simp [List.isPrefixOf, ih]

theorem TrimPrefix_append (pre u : List Char) : TrimPrefix pre (pre ++ u) = u := by
  rw [TrimPrefix, if_pos ((isPre_iff _ _).mpr ⟨u, rfl⟩), List.drop_left]

theorem TrimPrefix_no (pre s : List Char) (h : ¬ pre <+: s) :
    TrimPrefix pre s = s := by
  rw [TrimPrefix, if_neg]
  intro hc
  exact h ((isPre_iff _ _).mp hc)

theorem TrimSuffix_append (suf u : List Char) : TrimSuffix suf (u ++ suf) = u := by
  have hp : suf.isSuffixOf (u ++ suf) = true := by
    simp only [List.isSuffixOf, List.reverse_append]
    exact (isPre_iff _ _).mpr ⟨u.reverse, rfl⟩
  rw [TrimSuffix, if_pos hp, List.length_append]
  have harith : u.length + suf.length - suf.length = u.length := by omega
  rw [harith, List.take_left]

theorem splitPre_iff (s : List Char) : ∀ (p t : List Char),
    p <+: s ++ t ↔ p <+: s ∨ (s <+: p ∧ p.drop s.length <+: t) := by
  induction s with
  | nil =>
    intro p t
    simp only [List.nil_append, List.drop_zero]
    constructor
    · intro h
      exact Or.inr ⟨⟨p, rfl⟩, h⟩
    · rintro (h | ⟨-, h2⟩)
      · rcases h with ⟨q, hq⟩
        rcases List.append_eq_nil.mp hq with ⟨rfl, -⟩
        exact ⟨t, rfl⟩
      · exact h2
  | cons x s' ih =>
    intro p t
    cases p with
    | nil =>
      constructor
      · intro _
        exact Or.inl ⟨x :: s', rfl⟩
      · intro _
        exact ⟨x :: s' ++ t, rfl⟩
    | cons a p' =>
      rw [List.cons_append]
      simp only [consPre_iff, List.length_cons, List.drop_succ_cons, ih p' t]
      constructor
      · rintro ⟨rfl, h | ⟨h1, h2⟩⟩
        · exact Or.inl ⟨rfl, h⟩
        · exact Or.inr ⟨⟨rfl, h1⟩, h2⟩
      · rintro (⟨rfl, h⟩ | ⟨⟨rfl, h1⟩, h2⟩)
        · exact ⟨rfl, Or.inl h⟩
        · exact ⟨rfl, Or.inr ⟨h1, h2⟩⟩

/-! ## Helper lemmas about FieldsFunc -/

theorem FieldsFunc_sep (f : Char → Bool) (d : Char) (b : List Char)
    (hd : f d = true) : FieldsFunc f (d :: b) = FieldsFunc f b := by
  simp [FieldsFunc, hd]

theorem FieldsFunc_single (f : Char → Bool) (a : List Char) (ha : a ≠ [])
    (hf : ∀ c ∈ a, f c = false) : FieldsFunc f a = [a] := by
  induction a with
  | nil => exact absurd rfl ha
  | cons x xs ih =>
    have hx : f x = false := hf x (by simp)
    cases xs with
    | nil => simp [FieldsFunc, hx]
    | cons y ys =>
      have hy : f y = false := hf y (by simp)
      have hrec := ih (by simp) (fun c hc => hf c (List.mem_cons_of_mem _ hc))
      rw [FieldsFunc.eq_def]
      simp [hx, hy, hrec]

theorem FieldsFunc_append (f : Char → Bool) (a : List Char) (d : Char)
    (b : List Char) (ha : a ≠ []) (hf : ∀ c ∈ a, f c = false)
    (hd : f d = true) : FieldsFunc f (a ++ d :: b) = a :: FieldsFunc f b := by
  induction a with
  | nil => exact absurd rfl ha
  | cons x xs ih =>
    have hx : f x = false := hf x (by simp)
    cases xs with
    | nil => simp [FieldsFunc, hx, hd]
    | cons y ys =>
      have hy : f y = false := hf y (by simp)
      have hrec := ih (by simp) (fun c hc => hf c (List.mem_cons_of_mem _ hc))
      rw [List.cons_append, FieldsFunc.eq_def]
      simp only [List.cons_append] at hrec
      simp [hx, hy, hrec]

/-- Core parser lemma: when the input after both trims splits as
`T0 ++ sep :: owner ++ '/' :: repo ++ ".git"`, the parser returns
`(owner, repo)`. -/
theorem ownerAndRepo_core (url T0 owner repo : List Char) (c : Char)
    (hT : T0 ≠ []) (hTs : ∀ x ∈ T0, isSep x = false)
    (ho : owner ≠ []) (hos : ∀ x ∈ owner, isSep x = false)
    (hrs : ∀ x ∈ repo, isSep x = false)
    (hc : isSep c = true)
    (h : TrimPrefix ("git@".toList) (TrimPrefix ("https://".toList) url)
        = T0 ++ c :: (owner ++ '/' :: (repo ++ ".git".toList))) :
    ownerAndRepo url = some (owner, repo) := by
  have hgit : repo ++ ".git".toList ≠ [] := by
    intro hh
    rcases List.append_eq_nil.mp hh with ⟨-, h2⟩
    simp at h2
  have hgits : ∀ x ∈ repo ++ ".git".toList, isSep x = false := by
    intro x hx
    rcases List.mem_append.mp hx with h1 | h1
    · exact hrs x h1
    · fin_cases h1 <;> rfl
  simp only [ownerAndRepo, h]
  rw [FieldsFunc_append isSep T0 c _ hT hTs hc,
      FieldsFunc_append isSep owner '/' _ ho hos rfl,
      FieldsFunc_single isSep _ hgit hgits]
  simp only [TrimSuffix_append]

/-- Claim C5 (amended): for every HTTPS-form URL `https://host/OWNER/REPO.git`
where `host`, `OWNER`, `REPO` are non-empty and free of `/` and `:`, and
`host` is not the literal string `git@`, the parser returns exactly
`(OWNER, REPO)`, with the trailing `.git` stripped. -/
theorem c5_https_parse_amended (host owner repo : List Char)
    (hh : host ≠ []) (hhs : ∀ c ∈ host, isSep c = false)
    (ho : owner ≠ []) (hos : ∀ c ∈ owner, isSep c = false)
    (hr : repo ≠ []) (hrs : ∀ c ∈ repo, isSep c = false)
    (hg : host ≠ "git@".toList) :
    ownerAndRepo ("https://".toList
        ++ (host ++ '/' :: (owner ++ '/' :: (repo ++ ".git".toList))))
      = some (owner, repo) := by
  have h1 : TrimPrefix ("https://".toList)
      ("https://".toList ++ (host ++ '/' :: (owner ++ '/' :: (repo ++ ".git".toList))))
      = host ++ '/' :: (owner ++ '/' :: (repo ++ ".git".toList)) :=
    TrimPrefix_append _ _
  by_cases hp : ("git@".toList)
      <+: (host ++ '/' :: (owner ++ '/' :: (repo ++ ".git".toList)))
  · rcases (splitPre_iff host _ _).mp hp with hA | ⟨hB, hC⟩
    · rcases hA with ⟨h2, hsplit⟩
      have hh2 : h2 ≠ [] := by
        intro h0
        apply hg
        rw [← hsplit, h0, List.append_nil]
      refine ownerAndRepo_core _ h2 owner repo '/' hh2 ?_ ho hos hrs rfl ?_
      · intro x hx
        apply hhs
        rw [← hsplit]
        exact List.mem_append_right _ hx
      · rw [h1, ← hsplit, List.append_assoc, TrimPrefix_append]
    · exfalso
      cases hd : ("git@".toList).drop host.length with
      | nil =>
        have h4 : ("git@".toList).length ≤ host.length := List.drop_eq_nil_iff.mp hd
        exact hg (preEqOfLen hB h4)
      | cons e d' =>
        rw [hd] at hC
        have he : e = '/' := ((consPre_iff _ _ _ _).mp hC).1
        have hem : e ∈ ("git@".toList) :=
          List.drop_subset _ _ (by rw [hd]; exact List.mem_cons_self e d')
        rw [he] at hem
        exact absurd hem (by decide)
  · refine ownerAndRepo_core _ host owner repo '/' hh hhs ho hos hrs rfl ?_
    rw [h1, TrimPrefix_no _ _ hp]

/-- Claim C6: for every SSH-form URL `user@host:OWNER/REPO.git` where `user`,
`host`, `OWNER`, `REPO` are non-empty and free of `/` and `:` (any user
name, not only `git`), the parser returns exactly `(OWNER, REPO)`. -/
theorem c6_ssh_parse (user host owner repo : List Char)
    (hu : user ≠ []) (hus : ∀ c ∈ user, isSep c = false)
    (hh : host ≠ []) (hhs : ∀ c ∈ host, isSep c = false)
    (ho : owner ≠ []) (hos : ∀ c ∈ owner, isSep c = false)
    (hr : repo ≠ []) (hrs : ∀ c ∈ repo, isSep c = false) :
    ownerAndRepo (user
        ++ '@' :: (host ++ ':' :: (owner ++ '/' :: (repo ++ ".git".toList))))
      = some (owner, repo) := by
  set R : List Char := host ++ ':' :: (owner ++ '/' :: (repo ++ ".git".toList))
    with hR
  have hns : ¬ ("https://".toList <+: user ++ '@' :: R) := by
    intro hp
    rcases (splitPre_iff user _ _).mp hp with hA | ⟨hB, hC⟩
    · have hcm : (':' : Char) ∈ user := preSubset hA ':' (by decide)
      exact absurd (hus ':' hcm) (by decide)
    · cases hd : ("https://".toList).drop user.length with
      | nil =>
        have h8 : ("https://".toList).length ≤ user.length :=
          List.drop_eq_nil_iff.mp hd
        have hueq : user = "https://".toList := preEqOfLen hB h8
        have hcm : (':' : Char) ∈ user := by rw [hueq]; decide
        exact absurd (hus ':' hcm) (by decide)
      | cons e d' =>
        rw [hd] at hC
        have he : e = '@' := ((consPre_iff _ _ _ _).mp hC).1
        have hem : e ∈ ("https://".toList) :=
          List.drop_subset _ _ (by rw [hd]; exact List.mem_cons_self e d')
        rw [he] at hem
        exact absurd hem (by decide)
  have h1 : TrimPrefix ("https://".toList) (user ++ '@' :: R) = user ++ '@' :: R :=
    TrimPrefix_no _ _ hns
  have hT0s : ∀ (v : List Char), (∀ c ∈ v, isSep c = false) →
      ∀ x ∈ v ++ '@' :: host, isSep x = false := by
    intro v hv x hx
    rcases List.mem_append.mp hx with h2 | h2
    · exact hv x h2
    · rcases List.mem_cons.mp h2 with rfl | h3
      · rfl
      · exact hhs x h3
  by_cases hp : ("git@".toList) <+: (user ++ '@' :: R)
  · rcases (splitPre_iff user _ _).mp hp with hA | ⟨hB, hC⟩
    · rcases hA with ⟨u2, hsplit⟩
      refine ownerAndRepo_core _ (u2 ++ '@' :: host) owner repo ':' (by simp)
        ?_ ho hos hrs rfl ?_
      · refine hT0s u2 ?_
        intro x hx
        apply hus
        rw [← hsplit]
        exact List.mem_append_right _ hx
      · rw [h1, ← hsplit, List.append_assoc, TrimPrefix_append, hR]
        simp [List.append_assoc]
    · cases hd : ("git@".toList).drop user.length with
      | nil =>
        have h4 : ("git@".toList).length ≤ user.length := List.drop_eq_nil_iff.mp hd
        have hueq : user = "git@".toList := preEqOfLen hB h4
        refine ownerAndRepo_core _ ('@' :: host) owner repo ':' (by simp)
          ?_ ho hos hrs rfl ?_
        · intro x hx
          rcases List.mem_cons.mp hx with rfl | h3
          · rfl
          · exact hhs x h3
        · rw [h1, hueq, TrimPrefix_append, hR]
          simp
      | cons e d' =>
        rw [hd] at hC
        have he : e = '@' := ((consPre_iff _ _ _ _).mp hC).1
        rcases hB with ⟨t2, ht2⟩
        have htd : t2 = ("git@".toList).drop user.length := by
          rw [← ht2, List.drop_left]
        rw [hd, he] at htd
        have htt : user ++ '@' :: d' = "git@".toList := by
          rw [← htd]
          exact ht2
        rw [show ("git@".toList : List Char) = ['g', 'i', 't', '@'] from rfl] at htt
        rcases user with _ | ⟨a, _ | ⟨b, _ | ⟨c2, _ | ⟨d2, u5⟩⟩⟩⟩
        · exact absurd rfl hu
        · exfalso
          simp only [List.cons_append, List.nil_append] at htt
          injection htt with g1 htt1
          injection htt1 with g2
          exact absurd g2 (by decide)
        · exfalso
          simp only [List.cons_append, List.nil_append] at htt
          injection htt with g1 htt1
          injection htt1 with g2 htt2
          injection htt2 with g3
          exact absurd g3 (by decide)
        · simp only [List.cons_append, List.nil_append] at htt
          injection htt with g1 htt1
          injection htt1 with g2 htt2
          injection htt2 with g3 htt3
          subst g1
          subst g2
          subst g3
          refine ownerAndRepo_core _ host owner repo ':' hh hhs ho hos hrs rfl ?_
          rw [h1,
              show ('g' :: 'i' :: 't' :: []) ++ '@' :: R = "git@".toList ++ R from rfl,
              TrimPrefix_append, hR]
        · exfalso
          simp only [List.cons_append, List.nil_append] at htt
          injection htt with g1 htt1
          injection htt1 with g2 htt2
          injection htt2 with g3 htt3
          injection htt3 with g4 htt4
          rcases List.append_eq_nil.mp htt4 with ⟨-, h0⟩
          exact List.cons_ne_nil _ _ h0
  · refine ownerAndRepo_core _ (user ++ '@' :: host) owner repo ':' (by simp)
      (hT0s user hus) ho hos hrs rfl ?_
    rw [h1, TrimPrefix_no _ _ hp, hR]
    simp [List.append_assoc]

/-! ## Helper lemmas about lookupField -/

theorem lookupField_cons_ne (k k' : List Char) (v : JVal)
    (l : List (List Char × JVal)) (h : k' ≠ k) :
    lookupField k ((k', v) :: l) = lookupField k l := by
  rw [lookupField]
  dsimp only
  rw [if_neg h]

theorem lookupField_cons_eq (k : List Char) (v : JVal)
    (l : List (List Char × JVal)) :
    lookupField k ((k, v) :: l) = some v := by
  rw [lookupField]
  dsimp only
  rw [if_pos rfl]

theorem lookupField_state (r : DeploymentRequest) :
    lookupField ("state".toList) (marshalDeploymentRequest r)
      = some (JVal.str r.state) := by
  rw [marshalDeploymentRequest]
  simp only [List.cons_append, List.nil_append]
  rw [lookupField_cons_ne _ _ _ _ (by decide), lookupField_cons_ne _ _ _ _ (by decide),
      lookupField_cons_ne _ _ _ _ (by decide), lookupField_cons_eq]

/-! ## Claim theorems -/

/-- Claim C1 (code bug): on a repository URL with fewer than three
`/`- or `:`-separated fields the source does not take an explicit
"invalid repository URL" error branch (none exists); it reaches the
out-of-range indexing `a[1]`/`a[2]`, modelled as `none`.  At
`"https://x"` the field list has length 1, so the access is out of
range and the run panics. -/
theorem c1_malformed_url_panics :
    ownerAndRepo ("https://x".toList) = none
    ∧ (FieldsFunc isSep (TrimPrefix ("git@".toList)
        (TrimPrefix ("https://".toList) ("https://x".toList)))).length = 1 := by
  decide

/-- Claim C2 (code bug): with an empty description the source returns the
empty string, not the title-cased resolved state: the computed
`strings.Title(getState(state))` (here `"Pending"`) is discarded. -/
theorem c2_empty_description_not_titled :
    getDescription (fun _ => []) [] ("pending".toList) = []
    ∧ stringsTitle (getState (fun _ => []) ("pending".toList)) = "Pending".toList
    ∧ getDescription (fun _ => []) [] ("pending".toList)
        ≠ stringsTitle (getState (fun _ => []) ("pending".toList)) := by
  refine ⟨rfl, by decide, by decide⟩

/-- Claim C3: if call 1 receives a 201 response with body
`{"id": 42, "url": "https://x/42"}`, the second request is issued and its
URL is `{api_base}/repos/{owner}/{repo}/deployments/42/statuses`, which
contains the substring `/deployments/42/statuses`. -/
theorem c3_deployment_id_chained (getenv : List Char → List Char)
    (world : World) (cfg : Config) (owner repo : List Char)
    (hor : ownerAndRepo cfg.repositoryURL = some (owner, repo))
    (h201 : world.resp1.statusCode = 201)
    (hbody : world.resp1.body
      = some ("\x7b\"id\": 42, \"url\": \"https://x/42\"\x7d".toList)) :
    ∃ req1 req2, (createDeployment getenv world cfg).2.2 = [req1, req2] ∧
      req2.url = cfg.apiURL ++ "/repos/".toList ++ owner ++ "/".toList ++ repo
        ++ "/deployments/".toList ++ "42".toList ++ "/statuses".toList ∧
      ("/deployments/42/statuses".toList) <:+ req2.url := by
  have hid : unmarshalId ("\x7b\"id\": 42, \"url\": \"https://x/42\"\x7d".toList) = 42 := by
    decide
  have h42 : intToChars 42 = "42".toList := by decide
  simp only [createDeployment, createDeploymentStatus, hor, h201, hbody, hid, h42,
    apply_ite (Prod.snd), apply_ite (Prod.snd ∘ Prod.snd), ite_self]
  refine ⟨_, _, rfl, rfl, ?_⟩
  have htail : ("/deployments/42/statuses".toList : List Char)
      = "/deployments/".toList ++ ("42".toList ++ "/statuses".toList) := by decide
  exact ⟨cfg.apiURL ++ "/repos/".toList ++ owner ++ "/".toList ++ repo,
    by rw [htail]; simp [List.append_assoc]⟩

/-- Witness for C3 at a concrete configuration and world. -/
theorem c3_deployment_id_chained_witness :
    ownerAndRepo cfgEx.repositoryURL = some ("o".toList, "r".toList)
    ∧ worldEx.resp1.statusCode = 201
    ∧ ∃ req1 req2,
        (createDeployment (fun _ => []) worldEx cfgEx).2.2 = [req1, req2] ∧
        req2.url = cfgEx.apiURL ++ "/repos/".toList ++ "o".toList ++ "/".toList
          ++ "r".toList ++ "/deployments/".toList ++ "42".toList
          ++ "/statuses".toList ∧
        ("/deployments/42/statuses".toList) <:+ req2.url :=
  ⟨by decide, rfl,
    c3_deployment_id_chained (fun _ => []) worldEx cfgEx ("o".toList) ("r".toList)
      (by decide) rfl rfl⟩

/-- Claim C4: when call 1 is answered with a status other than 201, the
result is a returned error, only one request was issued (call 2 is never
attempted), and the process exits with code 1. -/
theorem c4_non201_no_second_call_exit1 (getenv : List Char → List Char)
    (world : World) (cfg : Config) (owner repo : List Char)
    (hor : ownerAndRepo cfg.repositoryURL = some (owner, repo))
    (h : world.resp1.statusCode ≠ 201) :
    (∃ msg, (createDeployment getenv world cfg).1 = RunResult.err msg) ∧
    (createDeployment getenv world cfg).2.2.length = 1 ∧
    (mainRun getenv world cfg).1 = some 1 := by
  simp [createDeployment, mainRun, hor, h]

/-- Witness for C4 at a concrete configuration and a 422 response. -/
theorem c4_non201_no_second_call_exit1_witness :
    world422.resp1.statusCode ≠ 201
    ∧ ((∃ msg, (createDeployment (fun _ => []) world422 cfgEx).1 = RunResult.err msg)
      ∧ (createDeployment (fun _ => []) world422 cfgEx).2.2.length = 1
      ∧ (mainRun (fun _ => []) world422 cfgEx).1 = some 1) :=
  ⟨by decide,
    c4_non201_no_second_call_exit1 (fun _ => []) world422 cfgEx ("o".toList)
      ("r".toList) (by decide) (by decide)⟩

/-- Counterexample to claim C5 as stated: `host = "git@"` is non-empty and
free of `/` and `:`, yet for `https://git@/o/r.git` the parser does not
return `(o, r)` — after both trims only two fields remain and the source
panics with an out-of-range index (modelled as `none`). -/
theorem c5_host_gitat_counterexample :
    ownerAndRepo ("https://".toList ++ ("git@".toList ++ '/' ::
        ("o".toList ++ '/' :: ("r".toList ++ ".git".toList)))) = none
    ∧ ownerAndRepo ("https://git@/o/r.git".toList)
        ≠ some ("o".toList, "r".toList) := by
  decide

/-- Witness for the amended claim C5 at a concrete URL. -/
theorem c5_https_parse_amended_witness :
    ownerAndRepo ("https://".toList ++ ("example.com".toList ++ '/' ::
        ("acme".toList ++ '/' :: ("widgets".toList ++ ".git".toList))))
      = some ("acme".toList, "widgets".toList) :=
  c5_https_parse_amended ("example.com".toList) ("acme".toList)
    ("widgets".toList) (by decide) (by decide) (by decide) (by decide)
    (by decide) (by decide) (by decide)

/-- Witness for claim C6 at a concrete URL with a non-`git` user name. -/
theorem c6_ssh_parse_witness :
    ownerAndRepo ("deploy".toList ++ '@' :: ("github.com".toList ++ ':' ::
        ("acme".toList ++ '/' :: ("widgets".toList ++ ".git".toList))))
      = some ("acme".toList, "widgets".toList) :=
  c6_ssh_parse ("deploy".toList) ("github.com".toList) ("acme".toList)
    ("widgets".toList) (by decide) (by decide) (by decide) (by decide)
    (by decide) (by decide) (by decide) (by decide)

/-- Claim C7: `getState` returns every non-`"auto"` preset unchanged, and on
`"auto"` returns `"success"` exactly when the `BITRISE_BUILD_STATUS` signal
equals `"0"`, else `"failure"` (an absent variable reads as `""`). -/
theorem c7_getState_spec (getenv : List Char → List Char) (preset : List Char) :
    (preset ≠ "auto".toList → getState getenv preset = preset) ∧
    (getState getenv ("auto".toList)
      = if getenv ("BITRISE_BUILD_STATUS".toList) = "0".toList
        then "success".toList else "failure".toList) := by
  constructor
  · intro h
    rw [getState, if_pos h]
  · simp [getState]

/-- Witness for C7: the pass-through hypothesis discharged at
`preset = "pending"`. -/
theorem c7_getState_spec_witness :
    getState (fun _ => []) ("pending".toList) = "pending".toList :=
  (c7_getState_spec (fun _ => []) ("pending".toList)).1 (by decide)

/-- Claim C8 (code bug): after a 201 on call 1, a failed body read does not
propagate an error — the source panics (`panic(err.Error())`,
main.go:143-145); and an unparseable body is silently ignored
(`json.Unmarshal`'s error is discarded, main.go:148), so call 2 IS issued,
with deployment id 0. -/
theorem c8_body_failure_behaviour :
    (createDeployment (fun _ => [])
        { resp1 := { statusCode := 201, status := "201 Created".toList,
                     body := none }
          resp2 := { statusCode := 201, status := "201 Created".toList,
                     body := some [] } }
        cfgEx).1 = RunResult.panicked
    ∧ ((createDeployment (fun _ => [])
        { resp1 := { statusCode := 201, status := "201 Created".toList,
                     body := some ("notjson".toList) }
          resp2 := { statusCode := 201, status := "201 Created".toList,
                     body := some [] } }
        cfgEx).2.2.map Request.url
      = ["api/repos/o/r/deployments".toList,
         "api/repos/o/r/deployments/0/statuses".toList]) := by
  constructor
  · decide
  · decide

/-- Claim C9: for each of the two calls, the request/response dump is
printed exactly when the response status is not 201 or the verbose flag is
set — in particular also on the 201 success path when verbose is set, and
(as part of the same condition) before the non-201 error is returned. -/
theorem c9_dump_iff_non201_or_verbose (getenv : List Char → List Char)
    (world : World) (cfg : Config) (owner repo : List Char)
    (hor : ownerAndRepo cfg.repositoryURL = some (owner, repo)) :
    ((createDeployment getenv world cfg).2.1.countP (isDump 1)
      = if world.resp1.statusCode ≠ 201 ∨ cfg.verbose = true then 1 else 0) ∧
    (world.resp1.statusCode = 201 → ∀ b, world.resp1.body = some b →
      (createDeployment getenv world cfg).2.1.countP (isDump 2)
        = if world.resp2.statusCode ≠ 201 ∨ cfg.verbose = true then 1 else 0) := by
  rcases world with ⟨⟨s1, st1, b1⟩, ⟨s2, st2, b2⟩⟩
  constructor
  · by_cases h1 : s1 = 201
    · cases b1 with
      | none =>
        by_cases hv : cfg.verbose = true <;>
          simp [createDeployment, hor, isDump, hv, h1,
            List.countP_cons, List.countP_append, List.countP_nil]
      | some b =>
        by_cases hv : cfg.verbose = true <;> by_cases h2 : s2 = 201 <;>
          simp [createDeployment, createDeploymentStatus, hor, isDump, hv, h1, h2,
            List.countP_cons, List.countP_append, List.countP_nil]
    · by_cases hv : cfg.verbose = true <;>
        simp [createDeployment, hor, isDump, hv, h1,
          List.countP_cons, List.countP_append, List.countP_nil]
  · intro h1 b hb
    simp only [HttpResp.mk.injEq] at hb ⊢
    subst h1
    subst hb
    by_cases hv : cfg.verbose = true <;> by_cases h2 : s2 = 201 <;>
      simp [createDeployment, createDeploymentStatus, hor, isDump, hv, h2,
        List.countP_cons, List.countP_append, List.countP_nil]

/-- Witness for C9 at a concrete configuration and world (both dumps, with
201 responses and verbose off: no dump is printed). -/
theorem c9_dump_iff_non201_or_verbose_witness :
    ((createDeployment (fun _ => []) worldEx cfgEx).2.1.countP (isDump 1)
      = if worldEx.resp1.statusCode ≠ 201 ∨ cfgEx.verbose = true then 1 else 0)
    ∧ ((createDeployment (fun _ => []) worldEx cfgEx).2.1.countP (isDump 2)
      = if worldEx.resp2.statusCode ≠ 201 ∨ cfgEx.verbose = true then 1 else 0) :=
  ⟨(c9_dump_iff_non201_or_verbose (fun _ => []) worldEx cfgEx ("o".toList)
      ("r".toList) (by decide)).1,
   (c9_dump_iff_non201_or_verbose (fun _ => []) worldEx cfgEx ("o".toList)
      ("r".toList) (by decide)).2 rfl _ rfl⟩

/-- Claim C10: the JSON body of call 1 always carries a `state` field whose
value is the empty string — the `State` field is never set when the request
is built and is serialized without `omitempty`. -/
theorem c10_call1_state_always_empty (getenv : List Char → List Char)
    (world : World) (cfg : Config) (owner repo : List Char)
    (hor : ownerAndRepo cfg.repositoryURL = some (owner, repo)) :
    (createDeployment getenv world cfg).2.2.head?.map
        (fun r => lookupField ("state".toList) r.body)
      = some (some (JVal.str [])) := by
  rcases world with ⟨⟨s1, st1, b1⟩, r2⟩
  by_cases h1 : s1 = 201
  · cases b1 with
    | none =>
      simp [createDeployment, hor, h1]
      exact lookupField_state _
    | some b =>
      simp [createDeployment, createDeploymentStatus, hor, h1]
      exact lookupField_state _
  · simp [createDeployment, hor, h1]
    exact lookupField_state _

/-- Witness for C10 at a concrete configuration and world. -/
theorem c10_call1_state_always_empty_witness :
    (createDeployment (fun _ => []) worldEx cfgEx).2.2.head?.map
        (fun r => lookupField ("state".toList) r.body)
      = some (some (JVal.str [])) :=
  c10_call1_state_always_empty (fun _ => []) worldEx cfgEx ("o".toList)
    ("r".toList) (by decide)
